import Mathlib

/-!
Verification of the amareleo-snarkos consensus core against its specification.

The definitions below are a shallow embedding of the Rust sources:
  - `src/node/bft/ledger-service/src/ledger.rs` (committee lookback, block
    advance, subdag atomicity check),
  - `src/node/bft/src/worker.rs` (unconfirmed transmission processing),
  - `src/node/bft/src/primary.rs` (batch proposal),
  - `src/node/sync/src/block_sync.rs` (peer locators and sync status).

External collaborators (the snarkVM ledger, committees, cryptography and
serialization) are modelled as abstract parameters: a function or flag in an
environment record stands for each call that leaves the repository. Machine
integers are modelled as `Nat` (for `u32`/`u64` values, whose saturating
subtraction is exactly `Nat` subtraction) and `Int` (for `i64` timestamps,
with `checked_sub` overflow made explicit).
-/

namespace AmareleoSnarkos

/-! ## Association list helpers (IndexMap / ordered map semantics) -/

/-- Lookup in an association list, first match wins (IndexMap lookup). -/
def lookupKey {α β : Type} [BEq α] (l : List (α × β)) (k : α) : Option β :=
  (l.find? (fun p => p.1 == k)).map Prod.snd

/-- `IndexMap::insert` semantics: replace the value in place if the key is
present, otherwise append the pair at the end. -/
def updateOrAppend {α β : Type} [BEq α] : List (α × β) → α → β → List (α × β)
  | [], k, v => [(k, v)]
  | p :: rest, k, v => if p.1 == k then (k, v) :: rest else p :: updateOrAppend rest k v

/-- Number of entries carrying the given key. -/
def countKey {α β : Type} [BEq α] (l : List (α × β)) (k : α) : Nat :=
  l.countP (fun p => p.1 == k)

/-! ## Transmissions

`TransmissionID` is a tagged union of (kind, content id, checksum); the
payloads of solutions and transactions are opaque blobs, modelled as `Nat`.
-/

/-- `snarkvm::narwhal::TransmissionID`: solution and transaction IDs carry the
content id and the checksum of the serialized payload. -/
inductive TransmissionID : Type
  | ratification : TransmissionID
  | solution (solutionId checksum : Nat) : TransmissionID
  | transaction (transactionId checksum : Nat) : TransmissionID
deriving DecidableEq

/-- `snarkvm::narwhal::Transmission`: the payload blob is opaque. -/
inductive Transmission : Type
  | ratification : Transmission
  | solution (data : Nat) : Transmission
  | transaction (data : Nat) : Transmission
deriving DecidableEq

/-- Environment abstracting the ledger, storage and proposed-batch queries a
worker or the primary makes about transmissions. `ledgerContainsTransmission`
returns an `Option` because `LedgerService::contains_transmission` returns a
`Result`: `none` models an `Err`, which callers resolve with `unwrap_or`. -/
structure ChainEnv : Type where
  ledgerContainsTransmission : TransmissionID → Option Bool
  storageContainsTransmission : TransmissionID → Bool
  proposedBatchContains : TransmissionID → Bool
  solutionChecksum : Nat → Option Nat
  transactionChecksum : Nat → Option Nat
  checkSolutionBasic : Nat → Nat → Bool
  checkTransactionBasic : Nat → Nat → Bool

/-! ## Ledger service: committee lookback round (ledger.rs lines 188-202) -/

/-- The round whose committee `get_committee_lookback_for_round` retrieves:
subtract 1 from even rounds and 2 from odd rounds (both saturating), then
subtract the lookback range (saturating). -/
def committee_lookback_round (lookbackRange round : Nat) : Nat :=
  let previousRound := if round % 2 == 0 then round - 1 else round - 2
  previousRound - lookbackRange

/-- `get_committee_lookback_for_round`: retrieves the committee for the
computed lookback round. The committee retrieval itself
(`get_committee_for_round`, an LRU cache over the snarkVM ledger) is abstract. -/
def get_committee_lookback_for_round {Committee : Type}
    (getCommitteeForRound : Nat → Committee) (lookbackRange round : Nat) : Committee :=
  getCommitteeForRound (committee_lookback_round lookbackRange round)

/-- The nearest even round strictly before `round` (0 when there is none):
the reading of the spec phrase `previous_even(r)`. -/
def previous_even_round (round : Nat) : Nat :=
  Nat.findGreatest (fun o => o % 2 = 0) (round - 1)

/-- The nearest odd round strictly before `round` (0 when there is none). -/
def previous_odd_round (round : Nat) : Nat :=
  Nat.findGreatest (fun o => o % 2 = 1) (round - 1)

/-! ## Ledger service: advance_to_next_block (ledger.rs lines 363-387) -/

/-- The snarkVM ledger `advance_to_next_block` (external): appends the block
when the (abstract) validity check passes. -/
def inner_ledger_advance {Block : Type} (validOk : Bool) (chain : List Block) (b : Block) :
    Except String (List Block) :=
  if validOk then .ok (chain ++ [b]) else .error "Failed to advance to the next block"

/-- The message produced when the shutdown flag short-circuits the advance. -/
def shutdownMessage : String := "Skipping advancing to block - The node is shutting down"

/-- `CoreLedgerService::advance_to_next_block`: bails when the shutdown flag
is set, otherwise delegates to the snarkVM ledger advance. -/
def advance_to_next_block {Block : Type} (shutdown validOk : Bool)
    (chain : List Block) (b : Block) : Except String (List Block) :=
  if shutdown then .error shutdownMessage
  else inner_ledger_advance validOk chain b

/-! ## Block sync: sync status (block_sync.rs lines 165-170 and 263-281) -/

/-- `MAX_BLOCKS_BEHIND` (block_sync.rs line 39). -/
def MAX_BLOCKS_BEHIND : Nat := 1

/-- The sync-status fields of `BlockSync`. -/
structure BlockSyncStatus : Type where
  isBlockSynced : Bool
  numBlocksBehind : Nat
deriving DecidableEq

/-- `BlockSync::update_is_block_synced`: `canonHeight` is the latest ledger
block height; `u32::saturating_sub` is `Nat` subtraction. -/
def update_is_block_synced (canonHeight : Nat) (greatestPeerHeight maxBlocksBehind : Nat) :
    BlockSyncStatus :=
  let numBlocksBehind := greatestPeerHeight - canonHeight
  let isSynced := numBlocksBehind ≤ maxBlocksBehind
  { isBlockSynced := isSynced, numBlocksBehind := numBlocksBehind }

/-- `BlockSync::try_block_sync`: one iteration of the block sync, which only
updates the sync status, passing a greatest peer height of 0. -/
def try_block_sync (canonHeight : Nat) : BlockSyncStatus :=
  update_is_block_synced canonHeight 0 MAX_BLOCKS_BEHIND

/-! ## Primary: check_proposal_timestamp (primary.rs lines 1023-1045) -/

/-- Smallest `i64` value. -/
def i64Min : Int := -(2 ^ 63)

/-- Largest `i64` value. -/
def i64Max : Int := 2 ^ 63 - 1

/-- `i64::checked_sub`: `none` when the difference is not representable. -/
def i64CheckedSub (a b : Int) : Option Int :=
  let d := a - b
  if i64Min ≤ d ∧ d ≤ i64Max then some d else none

/-- `Primary::check_proposal_timestamp`: the reference timestamp is the
author certificate at the previous round when storage has one, otherwise the
latest proposed batch timestamp; the elapsed time must reach the minimum
batch delay. -/
def check_proposal_timestamp (minBatchDelay : Nat) (previousCertTimestamp : Option Int)
    (latestProposedBatchTimestamp : Int) (timestamp : Int) : Except String Unit :=
  let previousTimestamp :=
    match previousCertTimestamp with
    | some t => t
    | none => latestProposedBatchTimestamp
  match i64CheckedSub timestamp previousTimestamp with
  | none => .error "Timestamp cannot be before the previous certificate"
  | some elapsed =>
    if elapsed < (minBatchDelay : Int) then
      .error "Timestamp is too soon after the previous certificate"
    else .ok ()

/-! ## Ledger service: subdag atomicity (ledger.rs lines 517-579)

Certificates and subdags come from snarkVM; only the fields the check reads
are modelled: certificate id, author, round and previous certificate ids.
-/

/-- The fields of `snarkvm::narwhal::BatchCertificate` read by the check. -/
structure Certificate : Type where
  id : Nat
  author : Nat
  round : Nat
  previousCertificateIds : List Nat
deriving DecidableEq

/-- `snarkvm::narwhal::Subdag`: a round-indexed map of certificates with a
designated leader certificate. -/
structure Subdag : Type where
  rounds : List (Nat × List Certificate)
  leaderCertificate : Certificate

/-- `Subdag::get(&round)`. -/
def Subdag.get (s : Subdag) (r : Nat) : Option (List Certificate) :=
  lookupKey s.rounds r

/-- The certificates the subdag holds at a round (empty when absent). -/
def Subdag.certsAt (s : Subdag) (r : Nat) : List Certificate :=
  (s.get r).getD []

/-- `Subdag::anchor_round`: the round of the leader certificate. -/
def Subdag.anchorRound (s : Subdag) : Nat := s.leaderCertificate.round

/-- The rounds `(previousRound..currentRound).rev()` traversed by `is_linked`:
`currentRound - 1` down to `previousRound`. -/
def isLinkedRounds (previousRound currentRound : Nat) : List Nat :=
  (List.range' previousRound (currentRound - previousRound)).reverse

/-- One step of the `is_linked` traversal: keep the certificates of the past
round that some certificate in the current traversal references. -/
def isLinkedStep (traversal certificates : List Certificate) : List Certificate :=
  certificates.filter (fun p => traversal.any (fun c => c.previousCertificateIds.contains p.id))

/-- The `is_linked` loop over the given rounds; errors when the subdag has no
entry for a round. -/
def isLinkedLoop (s : Subdag) (traversal : List Certificate) :
    List Nat → Except String (List Certificate)
  | [] => .ok traversal
  | r :: rest =>
    match s.get r with
    | none => .error "No certificates found for round"
    | some certificates => isLinkedLoop s (isLinkedStep traversal certificates) rest

/-- `is_linked(subdag, previous_certificate, current_certificate)`: whether a
causal path through `previous_certificate_ids` leads from the current
certificate down to the previous certificate. -/
def isLinked (s : Subdag) (previousCertificate currentCertificate : Certificate) :
    Except String Bool :=
  (isLinkedLoop s [currentCertificate]
      (isLinkedRounds previousCertificate.round currentCertificate.round)).map
    (fun traversal => traversal.contains previousCertificate)

/-- `(lo..=hi).rev().step_by(2)`: `hi, hi - 2, ...` while at least `lo`. -/
def revStepBy2 (lo : Nat) : Nat → List Nat
  | 0 => if lo = 0 then [0] else []
  | 1 => if lo ≤ 1 then [1] else []
  | h + 2 => if lo ≤ h + 2 then (h + 2) :: revStepBy2 lo h else []

/-- Environment of the atomicity check: the latest ledger round, and the
leader computed from the committee lookback for a round
(`ledger.get_committee_lookback_for_round(round)` followed by
`Committee::get_leader(round)`, both external; `none` models an error in
either step). -/
structure AtomicityEnv : Type where
  latestRound : Nat
  getCommitteeLookbackLeader : Nat → Option Nat

/-- The body of the `check_block_subdag_atomicity` round loop. -/
def check_block_subdag_atomicity_loop (env : AtomicityEnv) (s : Subdag) :
    List Nat → Except String Unit
  | [] => .ok ()
  | r :: rest =>
    match env.getCommitteeLookbackLeader r with
    | none => .error "No committee lookback found for round"
    | some computedLeader =>
      match (s.get r).bind (fun certificates =>
          certificates.find? (fun c => c.author == computedLeader)) with
      | none => check_block_subdag_atomicity_loop env s rest
      | some previousCertificate =>
        match isLinked s previousCertificate s.leaderCertificate with
        | .error e => .error e
        | .ok true => .error "The previous certificate should not be linked to the current certificate"
        | .ok false => check_block_subdag_atomicity_loop env s rest

/-- `Block::authority`: quorum blocks carry a subdag. -/
inductive BlockAuthority : Type
  | beacon : BlockAuthority
  | quorum (s : Subdag) : BlockAuthority

/-- `check_block_subdag_atomicity`: for each even round from
`latest_round + 2` up to `anchor_round - 2` (visited downward, stepping
by 2), reject when the subdag holds a certificate authored by that round
leader that is causally linked to the subdag leader certificate. -/
def check_block_subdag_atomicity (env : AtomicityEnv) (authority : BlockAuthority) :
    Except String Unit :=
  match authority with
  | .beacon => .ok ()
  | .quorum s =>
    check_block_subdag_atomicity_loop env s
      (revStepBy2 (env.latestRound + 2) (s.anchorRound - 2))

/-- A causal chain from `c` through the given (descending) rounds ending at
`p`: each step passes to a certificate of the next listed round referenced
by the current certificate through `previous_certificate_ids`. -/
def ChainThrough (s : Subdag) : List Nat → Certificate → Certificate → Prop
  | [], c, p => p = c
  | q :: rest, c, p =>
    ∃ m ∈ s.certsAt q, c.previousCertificateIds.contains m.id = true ∧ ChainThrough s rest m p

/-- The spec notion of a causal path from the subdag leader certificate down
to `prev`, traversing `previous_certificate_ids` rounds downward. -/
def CausallyLinked (s : Subdag) (prev cur : Certificate) : Prop :=
  ChainThrough s (isLinkedRounds prev.round cur.round) cur prev

/-! ## Worker: process_unconfirmed (worker.rs lines 135-262) -/

/-- The worker state the claims touch: the ready queue (ordered map) and the
pending set of transmission ids. -/
structure WorkerState : Type where
  ready : List (TransmissionID × Transmission)
  pending : List TransmissionID

/-- `Worker::contains_transmission` (worker.rs lines 136-144): the union query
over ready queue, proposed batch, storage and ledger; the ledger `Result` is
resolved with `unwrap_or(false)`. -/
def worker_contains_transmission (env : ChainEnv) (st : WorkerState)
    (transmissionId : TransmissionID) : Bool :=
  (lookupKey st.ready transmissionId).isSome
    || env.proposedBatchContains transmissionId
    || env.storageContainsTransmission transmissionId
    || (env.ledgerContainsTransmission transmissionId).getD false

/-- `Worker::process_unconfirmed_solution`: returns the state after the call
(the pending removal persists even on error) together with the result. -/
def process_unconfirmed_solution (env : ChainEnv) (st : WorkerState)
    (solutionId solution : Nat) : WorkerState × Except String Unit :=
  match env.solutionChecksum solution with
  | none => (st, .error "Failed to compute the checksum")
  | some checksum =>
    let transmissionId := TransmissionID.solution solutionId checksum
    let st1 : WorkerState :=
      { st with pending := st.pending.filter (fun t => !(t == transmissionId)) }
    if worker_contains_transmission env st1 transmissionId then
      (st1, .error "Solution already exists")
    else if env.checkSolutionBasic solutionId solution then
      ({ st1 with ready := updateOrAppend st1.ready transmissionId (Transmission.solution solution) },
        .ok ())
    else (st1, .error "Invalid solution")

/-- `Worker::process_unconfirmed_transaction`: the transaction twin. -/
def process_unconfirmed_transaction (env : ChainEnv) (st : WorkerState)
    (transactionId transaction : Nat) : WorkerState × Except String Unit :=
  match env.transactionChecksum transaction with
  | none => (st, .error "Failed to compute the checksum")
  | some checksum =>
    let transmissionId := TransmissionID.transaction transactionId checksum
    let st1 : WorkerState :=
      { st with pending := st.pending.filter (fun t => !(t == transmissionId)) }
    if worker_contains_transmission env st1 transmissionId then
      (st1, .error "Transaction already exists")
    else if env.checkTransactionBasic transactionId transaction then
      ({ st1 with ready := updateOrAppend st1.ready transmissionId (Transmission.transaction transaction) },
        .ok ())
    else (st1, .error "Invalid transaction")

/-! ## Primary: propose_batch_lite (primary.rs lines 359-626)

The drain-and-filter loop over the workers is modelled concretely; every
call that leaves the repository (ledger checks, signing, storage insertion,
gateway broadcast) is a flag or function in the environment.
-/

/-- The validity filter of the propose loop (primary.rs lines 499-544): a
transmission passes when its id and payload kinds agree, the recomputed
checksum matches, and the ledger basic check succeeds; ratifications are
explicitly forbidden. -/
def transmissionChecksOut (env : ChainEnv) : TransmissionID → Transmission → Bool
  | .solution solutionId checksum, .solution solution =>
    (env.solutionChecksum solution == some checksum)
      && env.checkSolutionBasic solutionId solution
  | .transaction transactionId checksum, .transaction transaction =>
    (env.transactionChecksum transaction == some checksum)
      && env.checkTransactionBasic transactionId transaction
  | .ratification, .ratification => false
  | _, _ => false

/-- Whether a drained transmission is inserted into the proposal map
(primary.rs lines 485-547): skip when the ledger already has it (a ledger
error counts as present, `unwrap_or(true)`), skip when storage has it unless
the map is still empty, then apply the validity filter. -/
def considerTransmission (env : ChainEnv) (acc : List (TransmissionID × Transmission))
    (id : TransmissionID) (tm : Transmission) : Bool :=
  if (env.ledgerContainsTransmission id).getD true then false
  else if !acc.isEmpty && env.storageContainsTransmission id then false
  else transmissionChecksOut env id tm

/-- The inner for-loop over one drained batch: returns the updated proposal
map and the updated per-worker inclusion counter. -/
def processDrained (env : ChainEnv) :
    List (TransmissionID × Transmission) → List (TransmissionID × Transmission) → Nat →
      List (TransmissionID × Transmission) × Nat
  | [], acc, included => (acc, included)
  | (id, tm) :: rest, acc, included =>
    if considerTransmission env acc id tm then
      processDrained env rest (updateOrAppend acc id tm) (included + 1)
    else processDrained env rest acc included

/-- The outer while-loop for one worker, with an explicit fuel so the
recursion is structural; each iteration drains up to the remaining quota and
strictly shrinks the queue, so `queue.length + 1` fuel is never exhausted. -/
def drainWorkerLoopFuel (env : ChainEnv) (numPerWorker : Nat) :
    Nat → List (TransmissionID × Transmission) → List (TransmissionID × Transmission) → Nat →
      List (TransmissionID × Transmission)
  | 0, _, acc, _ => acc
  | fuel + 1, queue, acc, included =>
    if included < numPerWorker then
      let batch := queue.take (numPerWorker - included)
      if batch.isEmpty then acc
      else
        let r := processDrained env batch acc included
        drainWorkerLoopFuel env numPerWorker fuel (queue.drop (numPerWorker - included)) r.1 r.2
    else acc

/-- Drain one worker into the proposal map (primary.rs lines 470-549). -/
def drainWorker (env : ChainEnv) (numPerWorker : Nat)
    (queue acc : List (TransmissionID × Transmission)) : List (TransmissionID × Transmission) :=
  drainWorkerLoopFuel env numPerWorker (queue.length + 1) queue acc 0

/-- The transmission-selection phase of `propose_batch_lite` (primary.rs
lines 465-550): the per-worker quota is `MAX_TRANSMISSIONS_PER_BATCH`
divided by the worker count. -/
def selectTransmissions (env : ChainEnv) (maxTransmissionsPerBatch : Nat)
    (workers : List (List (TransmissionID × Transmission))) :
    List (TransmissionID × Transmission) :=
  let numPerWorker := maxTransmissionsPerBatch / workers.length
  workers.foldl (fun acc queue => drainWorker env numPerWorker queue acc) []

/-- Environment of `propose_batch_lite`: every quantity read from storage,
the ledger, the gateway or the clock, and a flag for each fallible external
step. -/
structure PrimaryEnv : Type where
  chain : ChainEnv
  currentRound : Nat
  proposeLock : Nat
  minBatchDelay : Nat
  previousCertTimestamp : Option Int
  latestProposedBatchTimestamp : Int
  now : Int
  containsOwnCertificate : Bool
  bftAdvanceErr : Bool
  committeeLookback : Option Nat
  quorumReached : Bool
  previousCommitteeLookbackOk : Bool
  previousQuorumReached : Bool
  maxTransmissionsPerBatch : Nat
  workers : List (List (TransmissionID × Transmission))
  signOk : Bool
  addSignaturesOk : Bool
  storeOk : Bool

/-- Outcome of `propose_batch_lite`: `failure` is `Err(..)`, `skip` is the
`Ok(0)` early return, and `proposed round transmissions` is the successful
path returning `Ok(round)` after certifying the batch. -/
inductive ProposeOutcome : Type
  | failure (message : String) : ProposeOutcome
  | skip : ProposeOutcome
  | proposed (round : Nat) (transmissions : List (TransmissionID × Transmission)) : ProposeOutcome
deriving DecidableEq

/-- `Primary::propose_batch_lite` (primary.rs lines 359-626), with the early
returns in source order. In the already-certified branch, the BFT round
advance collapses to: error when the BFT send fails, skip otherwise
(`Ok(true)`, `Ok(false)` and the no-BFT case all return `Ok(0)`). -/
def propose_batch_lite (env : PrimaryEnv) : ProposeOutcome :=
  let round := env.currentRound
  let previousRound := round - 1
  if round = 0 then .failure "Round 0 cannot have transaction batches"
  else if round < env.proposeLock then .skip
  else if !(check_proposal_timestamp env.minBatchDelay env.previousCertTimestamp
      env.latestProposedBatchTimestamp env.now).isOk then .skip
  else if env.containsOwnCertificate then
    if env.bftAdvanceErr then .failure "Failed to update the BFT to the next round" else .skip
  else if round = env.proposeLock then .skip
  else
    match env.committeeLookback with
    | none => .failure "No committee lookback found"
    | some _committee =>
      if !env.quorumReached then .skip
      else
        let isReadyResult : Except String Bool :=
          if previousRound = 0 then .ok true
          else if !env.previousCommitteeLookbackOk then
            .error "The committee lookback is not known yet"
          else .ok env.previousQuorumReached
        match isReadyResult with
        | .error e => .failure e
        | .ok false => .skip
        | .ok true =>
          let transmissions :=
            selectTransmissions env.chain env.maxTransmissionsPerBatch env.workers
          if !env.signOk then .failure "Failed to sign the batch header"
          else if !env.addSignaturesOk then .failure "Failed to add a signature to the proposal"
          else if !env.storeOk then .failure "Failed to store and broadcast the certificate"
          else .proposed round transmissions

/-- Whether an entry of the proposal map is a ratification (by id or by
payload). -/
def isRatificationPair : TransmissionID × Transmission → Bool
  | (.ratification, _) => true
  | (_, .ratification) => true
  | _ => false

/-! ## Block sync: peer locators (block_sync.rs lines 199-251) -/

/-- Modelled from the spec: `BlockLocators` lives in the
`snarkos_node_sync_locators` crate, which is not part of the sources; the
spec describes it as a per-peer map of block height to block hash (recents
plus checkpoints), iterated upward in height. It is modelled as the flat
height-ascending list of (height, hash) pairs that its `into_iter` yields. -/
abbrev BlockLocators : Type := List (Nat × Nat)

/-- `BlockLocators::get_hash(height)`. -/
def BlockLocators.getHash (locators : BlockLocators) (height : Nat) : Option Nat :=
  lookupKey locators height

/-- Modelled from the spec: `BlockLocators::ensure_is_valid` is external; the
structural validity the ancestor computation relies on is that the iteration
visits heights strictly upward. -/
def BlockLocators.sortedAscending : BlockLocators → Bool
  | [] => true
  | [_] => true
  | a :: b :: rest => decide (a.1 < b.1) && BlockLocators.sortedAscending (b :: rest)

/-- The common-ancestor loop (block_sync.rs lines 218-226 and 238-246):
iterate the locators upward; a height the reference chain lacks is skipped,
a matching hash records the height, the first mismatch breaks. Instantiated
with the canonical ledger for the self ancestor and with another peer
locator lookup for the pairwise ancestors. -/
def compute_common_ancestor_loop (reference : Nat → Option Nat) :
    List (Nat × Nat) → Nat → Nat
  | [], ancestor => ancestor
  | (height, hash) :: rest, ancestor =>
    match reference height with
    | some referenceHash =>
      if referenceHash == hash then compute_common_ancestor_loop reference rest height
      else ancestor
    | none => compute_common_ancestor_loop reference rest ancestor

/-- `DUMMY_SELF_IP` (block_sync.rs line 43), as an abstract peer id. -/
def DUMMY_SELF_IP : Nat := 0

/-- The locator state of `BlockSync`: peer locators and the pairwise
common-ancestor map. -/
structure BlockSyncLocatorState : Type where
  locators : List (Nat × BlockLocators)
  commonAncestors : List ((Nat × Nat) × Nat)

/-- The pairwise loop of `update_peer_locators` (block_sync.rs lines
231-248): recompute the common ancestor of the new peer with every other
stored peer, matching the other locators against the new ones. -/
def update_pairwise_ancestors (peerIp : Nat) (locators : BlockLocators) :
    List (Nat × BlockLocators) → List ((Nat × Nat) × Nat) → List ((Nat × Nat) × Nat)
  | [], commonAncestors => commonAncestors
  | (otherIp, otherLocators) :: rest, commonAncestors =>
    if otherIp == peerIp then update_pairwise_ancestors peerIp locators rest commonAncestors
    else
      let ancestor := compute_common_ancestor_loop (locators.getHash) otherLocators 0
      update_pairwise_ancestors peerIp locators rest
        (updateOrAppend commonAncestors (peerIp, otherIp) ancestor)

/-- `BlockSync::update_peer_locators`: early-return when the stored locators
already match, validate, store, record the self common ancestor, then update
the pairwise ancestors with every other stored peer. `canon` is the
canonical ledger hash lookup (`get_block_hash`, `none` for an `Err`). -/
def update_peer_locators (canon : Nat → Option Nat) (st : BlockSyncLocatorState)
    (peerIp : Nat) (locators : BlockLocators) : Except String BlockSyncLocatorState :=
  if lookupKey st.locators peerIp == some locators then .ok st
  else if !(BlockLocators.sortedAscending locators) then .error "Invalid block locators"
  else
    let st1 : BlockSyncLocatorState :=
      { st with locators := updateOrAppend st.locators peerIp locators }
    let ancestor := compute_common_ancestor_loop canon locators 0
    let st2 : BlockSyncLocatorState :=
      { st1 with commonAncestors :=
          updateOrAppend st1.commonAncestors (DUMMY_SELF_IP, peerIp) ancestor }
    .ok { st2 with commonAncestors :=
        update_pairwise_ancestors peerIp locators st1.locators st2.commonAncestors }

/-! ## Concrete inputs used by the witness theorems -/

/-- A concrete chain environment: nothing is known to the ledger, storage or
proposed batch; checksums are constant; basic checks pass. -/
def egChainEnv : ChainEnv :=
  { ledgerContainsTransmission := fun _ => some false
    storageContainsTransmission := fun _ => false
    proposedBatchContains := fun _ => false
    solutionChecksum := fun _ => some 5
    transactionChecksum := fun _ => some 6
    checkSolutionBasic := fun _ _ => true
    checkTransactionBasic := fun _ _ => true }

/-- An empty worker state. -/
def egWorkerState : WorkerState := { ready := [], pending := [] }

/-- A primary environment in which every gate of `propose_batch_lite` passes
and one worker holds one valid solution. -/
def egPrimaryEnv : PrimaryEnv :=
  { chain := egChainEnv
    currentRound := 1
    proposeLock := 0
    minBatchDelay := 1
    previousCertTimestamp := none
    latestProposedBatchTimestamp := 0
    now := 10
    containsOwnCertificate := false
    bftAdvanceErr := false
    committeeLookback := some 7
    quorumReached := true
    previousCommitteeLookbackOk := true
    previousQuorumReached := false
    maxTransmissionsPerBatch := 4
    workers := [[(TransmissionID.solution 1 5, Transmission.solution 9)]]
    signOk := true
    addSignaturesOk := true
    storeOk := true }

/-- The same primary environment with a proposal timestamp that is too soon
after the reference timestamp. -/
def egPrimaryEnvTooSoon : PrimaryEnv := { egPrimaryEnv with now := 0 }

/-- An atomicity environment: the ledger is at round 0 and every committee
lookback elects author 0 as leader. -/
def egAtomicityEnv : AtomicityEnv :=
  { latestRound := 0, getCommitteeLookbackLeader := fun _ => some 0 }

/-- A split subdag: its leader certificate sits at anchor round 4, and the
certificate of the round-2 leader (author 0) is causally linked to it
through rounds 3 and 2. -/
def egSubdag : Subdag :=
  { rounds :=
      [(1, [⟨10, 0, 1, []⟩]),
        (2, [⟨20, 0, 2, [10]⟩]),
        (3, [⟨30, 0, 3, [20]⟩]),
        (4, [⟨40, 0, 4, [30]⟩])]
    leaderCertificate := ⟨40, 0, 4, [30]⟩ }

end AmareleoSnarkos

namespace AmareleoSnarkos

/-! ## Helper lemmas -/


theorem lookupKey_nil {α β : Type} [BEq α] (k : α) :
    lookupKey ([] : List (α × β)) k = none := rfl

theorem lookupKey_cons_pos {α β : Type} [BEq α] [LawfulBEq α]
    (p : α × β) (rest : List (α × β)) (k : α) (h : p.1 = k) :
    lookupKey (p :: rest) k = some p.2 := by
  simp [lookupKey, List.find?_cons_of_pos, h]

theorem lookupKey_cons_neg {α β : Type} [BEq α] [LawfulBEq α]
    (p : α × β) (rest : List (α × β)) (k : α) (h : ¬p.1 = k) :
    lookupKey (p :: rest) k = lookupKey rest k := by
  simp only [lookupKey]
  rw [List.find?_cons_of_neg]
  simp [h]

theorem lookupKey_updateOrAppend_self {α β : Type} [BEq α] [LawfulBEq α]
    (l : List (α × β)) (k : α) (v : β) : lookupKey (updateOrAppend l k v) k = some v := by
  induction l with
  | nil => simp [updateOrAppend, lookupKey]
  | cons p rest ih =>
    by_cases h : p.1 = k
    · simp only [updateOrAppend, h, beq_self_eq_true, if_true]
      exact lookupKey_cons_pos _ _ _ rfl
    · simp only [updateOrAppend, beq_iff_eq, h, if_false]
      rw [lookupKey_cons_neg _ _ _ h]
      exact ih

theorem lookupKey_updateOrAppend_ne {α β : Type} [BEq α] [LawfulBEq α]
    (l : List (α × β)) (k k2 : α) (v : β) (h : ¬k2 = k) :
    lookupKey (updateOrAppend l k v) k2 = lookupKey l k2 := by
  induction l with
  | nil =>
    simp only [updateOrAppend]
    rw [lookupKey_cons_neg _ _ _ (fun hk => h hk.symm)]
  | cons p rest ih =>
    by_cases hp : p.1 = k
    · subst hp
      simp only [updateOrAppend, beq_self_eq_true, if_true]
      rw [lookupKey_cons_neg (p.1, v) rest k2 (fun hk => h hk.symm),
        lookupKey_cons_neg p rest k2 (fun hk => h hk.symm)]
    · simp only [updateOrAppend, beq_iff_eq, hp, if_false]
      by_cases hk2 : p.1 = k2
      · rw [lookupKey_cons_pos _ _ _ hk2, lookupKey_cons_pos _ _ _ hk2]
      · rw [lookupKey_cons_neg _ _ _ hk2, lookupKey_cons_neg _ _ _ hk2]
        exact ih

theorem updateOrAppend_eq_append_of_lookup_none {α β : Type} [BEq α] [LawfulBEq α]
    (l : List (α × β)) (k : α) (v : β) (h : lookupKey l k = none) :
    updateOrAppend l k v = l ++ [(k, v)] := by
  induction l with
  | nil => simp [updateOrAppend]
  | cons p rest ih =>
    by_cases hp : p.1 = k
    · rw [lookupKey_cons_pos _ _ _ hp] at h
      exact absurd h (by simp)
    · rw [lookupKey_cons_neg _ _ _ hp] at h
      simp only [updateOrAppend, beq_iff_eq, hp, if_false, List.cons_append, List.cons.injEq,
        true_and]
      exact ih h

theorem updateOrAppend_length {α β : Type} [BEq α] [LawfulBEq α]
    (l : List (α × β)) (k : α) (v : β) :
    (updateOrAppend l k v).length ≤ l.length + 1 := by
  induction l with
  | nil => simp [updateOrAppend]
  | cons p rest ih =>
    by_cases hp : p.1 = k
    · simp [updateOrAppend, hp]
    · simp only [updateOrAppend, beq_iff_eq, hp, if_false, List.length_cons]
      omega

theorem updateOrAppend_all {α β : Type} [BEq α] [LawfulBEq α]
    (l : List (α × β)) (k : α) (v : β) (pred : α × β → Bool)
    (hl : l.all pred = true) (hkv : pred (k, v) = true) :
    (updateOrAppend l k v).all pred = true := by
  induction l with
  | nil => simpa [updateOrAppend]
  | cons p rest ih =>
    simp only [List.all_cons, Bool.and_eq_true] at hl
    by_cases hp : p.1 = k
    · simp [updateOrAppend, hp, hkv, hl.2]
    · simp only [updateOrAppend, beq_iff_eq, hp, if_false, List.all_cons, Bool.and_eq_true]
      exact ⟨hl.1, ih hl.2⟩

theorem countKey_eq_zero_of_lookup_none {α β : Type} [BEq α] [LawfulBEq α]
    (l : List (α × β)) (k : α) (h : lookupKey l k = none) : countKey l k = 0 := by
  induction l with
  | nil => simp [countKey]
  | cons p rest ih =>
    by_cases hp : p.1 = k
    · rw [lookupKey_cons_pos _ _ _ hp] at h
      exact absurd h (by simp)
    · rw [lookupKey_cons_neg _ _ _ hp] at h
      simpa [countKey, List.countP_cons, hp] using ih h

theorem countKey_append {α β : Type} [BEq α] [LawfulBEq α]
    (l l2 : List (α × β)) (k : α) : countKey (l ++ l2) k = countKey l k + countKey l2 k := by
  simp [countKey, List.countP_append]

theorem lookup_none_of_not_mem_keys {α β : Type} [BEq α] [LawfulBEq α]
    (l : List (α × β)) (k : α) (h : k ∉ l.map Prod.fst) : lookupKey l k = none := by
  induction l with
  | nil => rfl
  | cons p rest ih =>
    simp only [List.map_cons, List.mem_cons] at h
    push_neg at h
    rw [lookupKey_cons_neg _ _ _ (fun hp => h.1 hp.symm)]
    exact ih h.2

theorem countKey_le_one_of_nodup {α β : Type} [BEq α] [LawfulBEq α]
    (l : List (α × β)) (k : α) (h : (l.map Prod.fst).Nodup) : countKey l k ≤ 1 := by
  induction l with
  | nil => simp [countKey]
  | cons p rest ih =>
    simp only [List.map_cons, List.nodup_cons] at h
    by_cases hp : p.1 = k
    · have hz : countKey rest k = 0 := by
        apply countKey_eq_zero_of_lookup_none
        apply lookup_none_of_not_mem_keys
        rw [← hp]
        exact h.1
      simp only [countKey, List.countP_cons] at hz ⊢
      simp only [hp, beq_self_eq_true, if_true]
      omega
    · simpa [countKey, List.countP_cons, hp] using ih h.2

/-! ## Claims C9 and C10: sync status -/

/-- C9: `update_is_block_synced` stores `num_blocks_behind` as the greatest
peer height minus the canonical height (saturating at zero) and sets
`is_block_synced` exactly when that difference is at most the tolerance. -/
theorem claim_C9_update_is_block_synced (canonHeight greatestPeerHeight maxBlocksBehind : Nat) :
    (update_is_block_synced canonHeight greatestPeerHeight maxBlocksBehind).numBlocksBehind
        = greatestPeerHeight - canonHeight
      ∧ ((update_is_block_synced canonHeight greatestPeerHeight maxBlocksBehind).isBlockSynced
          = true ↔ greatestPeerHeight - canonHeight ≤ maxBlocksBehind) := by
  refine ⟨rfl, ?_⟩
  simp [update_is_block_synced]

/-- C10: `try_block_sync` invokes the sync-status update with a greatest peer
height fixed at 0, so afterwards the node reports itself synced with zero
blocks behind, whatever the canonical height. -/
theorem claim_C10_try_block_sync (canonHeight : Nat) :
    (try_block_sync canonHeight).isBlockSynced = true
      ∧ (try_block_sync canonHeight).numBlocksBehind = 0 := by
  constructor
  · simp [try_block_sync, update_is_block_synced, MAX_BLOCKS_BEHIND, Nat.zero_sub]
  · simp [try_block_sync, update_is_block_synced, Nat.zero_sub]

/-! ## Claim C8: advance_to_next_block under shutdown -/

/-- C8: `advance_to_next_block` fails (leaving the ledger untouched) whenever
the shutdown flag is set, and any successful advance appending the block
implies the flag was unset. -/
theorem claim_C8_advance_shutdown {Block : Type} (shutdown validOk : Bool)
    (chain : List Block) (b : Block) :
    advance_to_next_block true validOk chain b = .error shutdownMessage
      ∧ (∀ chain2, advance_to_next_block shutdown validOk chain b = .ok chain2 →
          shutdown = false ∧ chain2 = chain ++ [b]) := by
  constructor
  · simp [advance_to_next_block]
  · intro chain2 h
    cases shutdown with
    | true => simp [advance_to_next_block] at h
    | false =>
      cases validOk with
      | true =>
        simp only [advance_to_next_block, if_false, inner_ledger_advance, if_true,
          Except.ok.injEq, Bool.false_eq_true] at h
        exact ⟨rfl, h.symm⟩
      | false => simp [advance_to_next_block, inner_ledger_advance] at h

/-- Witness for C8: with the flag unset and a valid block, the advance
succeeds by appending the block, and with the flag set it fails. -/
theorem claim_C8_advance_shutdown_witness :
    advance_to_next_block true true ([] : List Nat) 7 = .error shutdownMessage
      ∧ (false = false ∧ [7] = ([] : List Nat) ++ [7]) :=
  ⟨(claim_C8_advance_shutdown false true ([] : List Nat) 7).1,
    (claim_C8_advance_shutdown false true ([] : List Nat) 7).2 [7] rfl⟩

/-! ## Claim C2: the committee lookback round -/

theorem previousRound_eq_previous_odd (round : Nat) :
    (if round % 2 == 0 then round - 1 else round - 2) = previous_odd_round round := by
  unfold previous_odd_round
  rcases Nat.even_or_odd round with h | h
  · have h2 : round % 2 = 0 := Nat.even_iff.mp h
    rcases Nat.eq_zero_or_pos round with h0 | h0
    · subst h0
      simp [Nat.findGreatest]
    · have hge : 2 ≤ round := by
        rcases h with ⟨m, hm⟩
        omega
      rw [if_pos (by simp [h2])]
      symm
      apply Nat.findGreatest_eq_iff.mpr
      refine ⟨le_refl _, fun _ => by omega, fun n hlt hle => by omega⟩
  · have h2 : round % 2 = 1 := Nat.odd_iff.mp h
    rw [if_neg (by simp [h2])]
    rcases Nat.lt_or_ge round 3 with h3 | h3
    · have : round = 1 := by omega
      subst this
      simp [Nat.findGreatest]
    · symm
      apply Nat.findGreatest_eq_iff.mpr
      refine ⟨by omega, fun _ => by omega, fun n hlt hle => by omega⟩

/-- Counterexample for C2: at round 104 with a lookback range of 100 (the
protocol value), the code uses lookback round 3, not
`previous_even(104) - 100 = 2`; with an injective committee assignment the
returned committees differ. -/
theorem claim_C2_counterexample :
    get_committee_lookback_for_round (fun r => r) 100 104
      ≠ previous_even_round 104 - 100 := by
  decide

/-- C2 (amended): `get_committee_lookback_for_round(r)` returns the committee
for the round `previous_odd(r) - COMMITTEE_LOOKBACK_RANGE`, where
`previous_odd(r)` is the nearest odd round strictly before `r` and the
subtractions floor at zero. -/
theorem claim_C2_lookback_round {Committee : Type} (getCommitteeForRound : Nat → Committee)
    (lookbackRange round : Nat) :
    get_committee_lookback_for_round getCommitteeForRound lookbackRange round
      = getCommitteeForRound (previous_odd_round round - lookbackRange) := by
  unfold get_committee_lookback_for_round committee_lookback_round
  rw [previousRound_eq_previous_odd]

/-! ## Claim C6: the minimum batch delay check -/

theorem check_proposal_timestamp_ok_iff (minBatchDelay : Nat) (previousCertTimestamp : Option Int)
    (latestProposedBatchTimestamp timestamp : Int) :
    check_proposal_timestamp minBatchDelay previousCertTimestamp
        latestProposedBatchTimestamp timestamp = .ok ()
      ↔ ((minBatchDelay : Int)
            ≤ timestamp - previousCertTimestamp.getD latestProposedBatchTimestamp
          ∧ timestamp - previousCertTimestamp.getD latestProposedBatchTimestamp ≤ i64Max) := by
  have hmin : (0 : Int) ≤ (minBatchDelay : Int) := Int.ofNat_nonneg _
  have hMin : i64Min = -(2 ^ 63) := rfl
  have hMax : i64Max = 2 ^ 63 - 1 := rfl
  cases previousCertTimestamp with
  | none =>
    by_cases hc : i64Min ≤ timestamp - latestProposedBatchTimestamp
        ∧ timestamp - latestProposedBatchTimestamp ≤ i64Max
    · by_cases hlt : timestamp - latestProposedBatchTimestamp < (minBatchDelay : Int)
      · simp only [check_proposal_timestamp, i64CheckedSub, if_pos hc, if_pos hlt, Option.getD]
        constructor
        · intro h
          exact absurd h (by simp)
        · intro h
          omega
      · simp only [check_proposal_timestamp, i64CheckedSub, if_pos hc, if_neg hlt, Option.getD]
        constructor
        · intro _
          exact ⟨by omega, hc.2⟩
        · intro _
          trivial
    · simp only [check_proposal_timestamp, i64CheckedSub, if_neg hc, Option.getD]
      constructor
      · intro h
        exact absurd h (by simp)
      · intro h
        rw [hMin, hMax] at hc
        exact absurd ⟨by omega, h.2⟩ hc
  | some t =>
    by_cases hc : i64Min ≤ timestamp - t ∧ timestamp - t ≤ i64Max
    · by_cases hlt : timestamp - t < (minBatchDelay : Int)
      · simp only [check_proposal_timestamp, i64CheckedSub, if_pos hc, if_pos hlt, Option.getD]
        constructor
        · intro h
          exact absurd h (by simp)
        · intro h
          omega
      · simp only [check_proposal_timestamp, i64CheckedSub, if_pos hc, if_neg hlt, Option.getD]
        constructor
        · intro _
          exact ⟨by omega, hc.2⟩
        · intro _
          trivial
    · simp only [check_proposal_timestamp, i64CheckedSub, if_neg hc, Option.getD]
      constructor
      · intro h
        exact absurd h (by simp)
      · intro h
        rw [hMin, hMax] at hc
        exact absurd ⟨by omega, h.2⟩ hc

/-- Counterexample for C6: with the previous certificate timestamp at the
bottom of the `i64` range and a large current timestamp, the difference
exceeds the minimum batch delay, yet `checked_sub` overflows and the check
fails; so success is not equivalent to the difference reaching the delay. -/
theorem claim_C6_counterexample :
    (check_proposal_timestamp 1 (some (-(2 ^ 63))) 0 (2 ^ 63 - 1)).isOk = false
      ∧ (1 : Int) ≤ (2 ^ 63 - 1 : Int) - (-(2 ^ 63)) := by
  constructor
  · decide
  · decide

/-- C6 (amended): `check_proposal_timestamp` succeeds exactly when the
timestamp minus the reference timestamp (the author certificate of the
previous round when stored, else the latest proposed batch timestamp) is at
least `MIN_BATCH_DELAY_IN_SECS` and representable in `i64` (on `checked_sub`
overflow the check fails); and `propose_batch_lite` skips proposing whenever
this check fails on a nonzero round. -/
theorem claim_C6_check_proposal_timestamp (env : PrimaryEnv) (minBatchDelay : Nat)
    (previousCertTimestamp : Option Int) (latestProposedBatchTimestamp timestamp : Int)
    (hround : ¬env.currentRound = 0)
    (hfail : (check_proposal_timestamp env.minBatchDelay env.previousCertTimestamp
        env.latestProposedBatchTimestamp env.now).isOk = false) :
    (check_proposal_timestamp minBatchDelay previousCertTimestamp
          latestProposedBatchTimestamp timestamp = .ok ()
        ↔ ((minBatchDelay : Int)
              ≤ timestamp - previousCertTimestamp.getD latestProposedBatchTimestamp
            ∧ timestamp - previousCertTimestamp.getD latestProposedBatchTimestamp ≤ i64Max))
      ∧ propose_batch_lite env = .skip := by
  refine ⟨check_proposal_timestamp_ok_iff _ _ _ _, ?_⟩
  unfold propose_batch_lite
  rw [if_neg hround]
  by_cases hlock : env.currentRound < env.proposeLock
  · rw [if_pos hlock]
  · rw [if_neg hlock, if_pos (by simp [hfail])]

/-- Witness for C6: a concrete environment whose proposal timestamp equals
the reference timestamp, making the check fail and the proposal skip. -/
theorem claim_C6_check_proposal_timestamp_witness :
    (check_proposal_timestamp 1 none 0 5 = .ok ()
        ↔ ((1 : Int) ≤ 5 - (none : Option Int).getD 0
            ∧ 5 - (none : Option Int).getD 0 ≤ i64Max))
      ∧ propose_batch_lite egPrimaryEnvTooSoon = .skip :=
  claim_C6_check_proposal_timestamp egPrimaryEnvTooSoon 1 none 0 5 (by decide) (by decide)

/-! ## Claims C4 and C5: the proposed batch -/

theorem propose_batch_lite_proposed (env : PrimaryEnv) (r : Nat)
    (ts : List (TransmissionID × Transmission)) (h : propose_batch_lite env = .proposed r ts) :
    r = env.currentRound
      ∧ ts = selectTransmissions env.chain env.maxTransmissionsPerBatch env.workers := by
  simp only [propose_batch_lite] at h
  repeat' split at h
  all_goals first
    | exact ProposeOutcome.noConfusion h
    | (injection h with h1 h2
       exact ⟨h1.symm, h2.symm⟩)

theorem considerTransmission_checksOut (env : ChainEnv)
    (acc : List (TransmissionID × Transmission)) (id : TransmissionID) (tm : Transmission)
    (h : considerTransmission env acc id tm = true) : transmissionChecksOut env id tm = true := by
  unfold considerTransmission at h
  split at h
  · exact absurd h (by simp)
  · split at h
    · exact absurd h (by simp)
    · exact h

theorem processDrained_bounds (env : ChainEnv)
    (batch : List (TransmissionID × Transmission)) :
    ∀ (acc : List (TransmissionID × Transmission)) (included : Nat),
      included ≤ (processDrained env batch acc included).2
        ∧ (processDrained env batch acc included).2 ≤ included + batch.length
        ∧ (processDrained env batch acc included).1.length + included
            ≤ acc.length + (processDrained env batch acc included).2 := by
  induction batch with
  | nil =>
    intro acc included
    simp [processDrained]
  | cons p rest ih =>
    intro acc included
    obtain ⟨id, tm⟩ := p
    by_cases hc : considerTransmission env acc id tm = true
    · simp only [processDrained, hc, if_true, List.length_cons]
      have h1 := ih (updateOrAppend acc id tm) (included + 1)
      have h2 := updateOrAppend_length acc id tm
      exact ⟨by omega, by omega, by omega⟩
    · simp only [processDrained, List.length_cons]
      rw [if_neg hc]
      have h1 := ih acc included
      exact ⟨by omega, by omega, by omega⟩

theorem drainWorkerLoopFuel_bound (env : ChainEnv) (numPerWorker : Nat) (fuel : Nat) :
    ∀ (queue acc : List (TransmissionID × Transmission)) (included : Nat),
      included ≤ numPerWorker →
      (drainWorkerLoopFuel env numPerWorker fuel queue acc included).length + included
        ≤ acc.length + numPerWorker := by
  induction fuel with
  | zero =>
    intro queue acc included h
    simp only [drainWorkerLoopFuel]
    omega
  | succ fuel ih =>
    intro queue acc included h
    simp only [drainWorkerLoopFuel]
    by_cases h1 : included < numPerWorker
    · rw [if_pos h1]
      by_cases h2 : (queue.take (numPerWorker - included)).isEmpty = true
      · rw [if_pos h2]
        omega
      · rw [if_neg h2]
        have hb := processDrained_bounds env (queue.take (numPerWorker - included)) acc included
        have htake : (queue.take (numPerWorker - included)).length ≤ numPerWorker - included := by
          simp [List.length_take]
        have hple : (processDrained env (queue.take (numPerWorker - included)) acc included).2
            ≤ numPerWorker := by omega
        have hrec := ih (queue.drop (numPerWorker - included))
          (processDrained env (queue.take (numPerWorker - included)) acc included).1
          (processDrained env (queue.take (numPerWorker - included)) acc included).2 hple
        omega
    · rw [if_neg h1]
      omega

theorem drainWorker_bound (env : ChainEnv) (numPerWorker : Nat)
    (queue acc : List (TransmissionID × Transmission)) :
    (drainWorker env numPerWorker queue acc).length ≤ acc.length + numPerWorker := by
  have := drainWorkerLoopFuel_bound env numPerWorker (queue.length + 1) queue acc 0
    (Nat.zero_le _)
  simpa [drainWorker] using this

theorem foldl_drainWorker_length (env : ChainEnv) (numPerWorker : Nat) :
    ∀ (workers : List (List (TransmissionID × Transmission)))
      (acc : List (TransmissionID × Transmission)),
      (workers.foldl (fun acc queue => drainWorker env numPerWorker queue acc) acc).length
        ≤ acc.length + workers.length * numPerWorker := by
  intro workers
  induction workers with
  | nil =>
    intro acc
    simp
  | cons q rest ih =>
    intro acc
    simp only [List.foldl_cons, List.length_cons]
    have h1 := ih (drainWorker env numPerWorker q acc)
    have h2 := drainWorker_bound env numPerWorker q acc
    have h3 : (rest.length + 1) * numPerWorker = rest.length * numPerWorker + numPerWorker := by
      ring
    omega

theorem selectTransmissions_length (env : ChainEnv) (maxTransmissionsPerBatch : Nat)
    (workers : List (List (TransmissionID × Transmission))) :
    (selectTransmissions env maxTransmissionsPerBatch workers).length
      ≤ maxTransmissionsPerBatch := by
  simp only [selectTransmissions]
  have h := foldl_drainWorker_length env (maxTransmissionsPerBatch / workers.length) workers []
  have h2 : workers.length * (maxTransmissionsPerBatch / workers.length)
      ≤ maxTransmissionsPerBatch := by
    rw [Nat.mul_comm]
    exact Nat.div_mul_le_self _ _
  simp only [List.length_nil, Nat.zero_add] at h
  omega

/-- C4: every batch constructed by `propose_batch_lite` holds at most
`MAX_TRANSMISSIONS_PER_BATCH` transmissions: each worker contributes at most
`MAX_TRANSMISSIONS_PER_BATCH / num_workers`, so the total never exceeds the
bound. -/
theorem claim_C4_batch_size_bound (env : PrimaryEnv) (r : Nat)
    (ts : List (TransmissionID × Transmission)) (h : propose_batch_lite env = .proposed r ts) :
    ts.length ≤ env.maxTransmissionsPerBatch := by
  obtain ⟨-, hts⟩ := propose_batch_lite_proposed env r ts h
  rw [hts]
  exact selectTransmissions_length _ _ _

/-- Witness for C4: the concrete environment proposes a one-element batch
within the bound of 4. -/
theorem claim_C4_batch_size_bound_witness :
    ([(TransmissionID.solution 1 5, Transmission.solution 9)] :
        List (TransmissionID × Transmission)).length ≤ egPrimaryEnv.maxTransmissionsPerBatch :=
  claim_C4_batch_size_bound egPrimaryEnv 1
    [(TransmissionID.solution 1 5, Transmission.solution 9)] (by decide)

theorem transmissionChecksOut_not_ratification (env : ChainEnv) (id : TransmissionID)
    (tm : Transmission) (h : transmissionChecksOut env id tm = true) :
    isRatificationPair (id, tm) = false := by
  cases id <;> cases tm <;>
    simp_all [transmissionChecksOut, isRatificationPair]

theorem processDrained_all (env : ChainEnv)
    (batch : List (TransmissionID × Transmission)) :
    ∀ (acc : List (TransmissionID × Transmission)) (included : Nat),
      acc.all (fun p => !isRatificationPair p) = true →
      (processDrained env batch acc included).1.all (fun p => !isRatificationPair p) = true := by
  induction batch with
  | nil =>
    intro acc included h
    simpa [processDrained] using h
  | cons p rest ih =>
    intro acc included h
    obtain ⟨id, tm⟩ := p
    by_cases hc : considerTransmission env acc id tm = true
    · simp only [processDrained, hc, if_true]
      apply ih
      apply updateOrAppend_all _ _ _ _ h
      have := transmissionChecksOut_not_ratification env id tm
        (considerTransmission_checksOut env acc id tm hc)
      simp [this]
    · simp only [processDrained]
      rw [if_neg hc]
      exact ih acc included h

theorem drainWorkerLoopFuel_all (env : ChainEnv) (numPerWorker fuel : Nat) :
    ∀ (queue acc : List (TransmissionID × Transmission)) (included : Nat),
      acc.all (fun p => !isRatificationPair p) = true →
      (drainWorkerLoopFuel env numPerWorker fuel queue acc included).all
          (fun p => !isRatificationPair p) = true := by
  induction fuel with
  | zero =>
    intro queue acc included h
    simpa [drainWorkerLoopFuel] using h
  | succ fuel ih =>
    intro queue acc included h
    simp only [drainWorkerLoopFuel]
    by_cases h1 : included < numPerWorker
    · rw [if_pos h1]
      by_cases h2 : (queue.take (numPerWorker - included)).isEmpty = true
      · rw [if_pos h2]
        exact h
      · rw [if_neg h2]
        exact ih _ _ _ (processDrained_all env _ acc included h)
    · rw [if_neg h1]
      exact h

theorem selectTransmissions_all (env : ChainEnv) (maxTransmissionsPerBatch : Nat)
    (workers : List (List (TransmissionID × Transmission))) :
    (selectTransmissions env maxTransmissionsPerBatch workers).all
        (fun p => !isRatificationPair p) = true := by
  simp only [selectTransmissions]
  generalize maxTransmissionsPerBatch / workers.length = numPerWorker
  have : ∀ (ws : List (List (TransmissionID × Transmission)))
      (acc : List (TransmissionID × Transmission)),
      acc.all (fun p => !isRatificationPair p) = true →
      (ws.foldl (fun acc queue => drainWorker env numPerWorker queue acc) acc).all
          (fun p => !isRatificationPair p) = true := by
    intro ws
    induction ws with
    | nil =>
      intro acc h
      simpa using h
    | cons q rest ih =>
      intro acc h
      simp only [List.foldl_cons]
      exact ih _ (drainWorkerLoopFuel_all env numPerWorker _ q acc 0 h)
  exact this workers [] (by simp)

/-- C5: no batch constructed by `propose_batch_lite` contains a ratification
entry: every ratification drained from a worker is skipped unconditionally
and never inserted into the proposal map. -/
theorem claim_C5_no_ratifications (env : PrimaryEnv) (r : Nat)
    (ts : List (TransmissionID × Transmission)) (h : propose_batch_lite env = .proposed r ts) :
    ts.all (fun p => !isRatificationPair p) = true := by
  obtain ⟨-, hts⟩ := propose_batch_lite_proposed env r ts h
  rw [hts]
  exact selectTransmissions_all _ _ _

/-- Witness for C5: the concrete proposed batch carries no ratification. -/
theorem claim_C5_no_ratifications_witness :
    ([(TransmissionID.solution 1 5, Transmission.solution 9)] :
        List (TransmissionID × Transmission)).all (fun p => !isRatificationPair p) = true :=
  claim_C5_no_ratifications egPrimaryEnv 1
    [(TransmissionID.solution 1 5, Transmission.solution 9)] (by decide)

/-! ## Claim C3: worker dedup on process_unconfirmed -/

theorem lookup_ready_none_of_not_contains (env : ChainEnv) (st : WorkerState)
    (transmissionId : TransmissionID)
    (h : worker_contains_transmission env st transmissionId = false) :
    lookupKey st.ready transmissionId = none := by
  simp only [worker_contains_transmission, Bool.or_eq_false_iff] at h
  rcases hl : lookupKey st.ready transmissionId with _ | v
  · rfl
  · exfalso
    rw [hl] at h
    simp at h

theorem process_unconfirmed_solution_eq (env : ChainEnv) (solutionId solution checksum : Nat)
    (hchk : env.solutionChecksum solution = some checksum) (s : WorkerState) :
    process_unconfirmed_solution env s solutionId solution =
      (if worker_contains_transmission env s (TransmissionID.solution solutionId checksum) then
        ({ s with pending := s.pending.filter (fun t => !(t == TransmissionID.solution solutionId checksum)) },
          Except.error "Solution already exists")
      else if env.checkSolutionBasic solutionId solution then
        ({ ready := updateOrAppend s.ready (TransmissionID.solution solutionId checksum)
              (Transmission.solution solution),
            pending := s.pending.filter (fun t => !(t == TransmissionID.solution solutionId checksum)) },
          Except.ok ())
      else
        ({ s with pending := s.pending.filter (fun t => !(t == TransmissionID.solution solutionId checksum)) },
          Except.error "Invalid solution")) := by
  simp only [process_unconfirmed_solution, hchk]
  rfl

theorem process_unconfirmed_transaction_eq (env : ChainEnv)
    (transactionId transaction checksum : Nat)
    (hchk : env.transactionChecksum transaction = some checksum) (s : WorkerState) :
    process_unconfirmed_transaction env s transactionId transaction =
      (if worker_contains_transmission env s
          (TransmissionID.transaction transactionId checksum) then
        ({ s with pending := s.pending.filter (fun t => !(t == TransmissionID.transaction transactionId checksum)) },
          Except.error "Transaction already exists")
      else if env.checkTransactionBasic transactionId transaction then
        ({ ready := updateOrAppend s.ready (TransmissionID.transaction transactionId checksum)
              (Transmission.transaction transaction),
            pending := s.pending.filter (fun t => !(t == TransmissionID.transaction transactionId checksum)) },
          Except.ok ())
      else
        ({ s with pending := s.pending.filter (fun t => !(t == TransmissionID.transaction transactionId checksum)) },
          Except.error "Invalid transaction")) := by
  simp only [process_unconfirmed_transaction, hchk]
  rfl

theorem process_unconfirmed_solution_spec (env : ChainEnv) (st : WorkerState)
    (solutionId solution checksum : Nat)
    (hchk : env.solutionChecksum solution = some checksum)
    (hnd : (st.ready.map Prod.fst).Nodup) :
    (worker_contains_transmission env st (TransmissionID.solution solutionId checksum) = true →
        (process_unconfirmed_solution env st solutionId solution).2
            = .error "Solution already exists"
          ∧ (process_unconfirmed_solution env st solutionId solution).1.ready = st.ready)
      ∧ ((process_unconfirmed_solution env st solutionId solution).2.isOk = true
          ↔ (worker_contains_transmission env st (TransmissionID.solution solutionId checksum)
                = false
              ∧ env.checkSolutionBasic solutionId solution = true))
      ∧ ((process_unconfirmed_solution env st solutionId solution).2.isOk = true →
          (process_unconfirmed_solution env st solutionId solution).1.ready
            = st.ready ++ [(TransmissionID.solution solutionId checksum,
                Transmission.solution solution)])
      ∧ ((process_unconfirmed_solution env
              (process_unconfirmed_solution env st solutionId solution).1
              solutionId solution).2.isOk = false
          ∧ countKey (process_unconfirmed_solution env
                (process_unconfirmed_solution env st solutionId solution).1
                solutionId solution).1.ready
              (TransmissionID.solution solutionId checksum) ≤ 1) := by
  by_cases hdup :
      worker_contains_transmission env st (TransmissionID.solution solutionId checksum) = true
  · have h1 := process_unconfirmed_solution_eq env solutionId solution checksum hchk st
    rw [if_pos hdup] at h1
    have hdup2 : worker_contains_transmission env
        ({ st with pending := st.pending.filter (fun t => !(t == TransmissionID.solution solutionId checksum)) } : WorkerState)
        (TransmissionID.solution solutionId checksum) = true := hdup
    have h2 := process_unconfirmed_solution_eq env solutionId solution checksum hchk
      (process_unconfirmed_solution env st solutionId solution).1
    rw [h1] at h2 ⊢
    rw [if_pos hdup2] at h2
    refine ⟨fun _ => ⟨rfl, rfl⟩, by simp [hdup, Except.isOk, Except.toBool], by simp [Except.isOk, Except.toBool], ?_⟩
    rw [h2]
    exact ⟨rfl, countKey_le_one_of_nodup _ _ hnd⟩
  · have hdupf : worker_contains_transmission env st
        (TransmissionID.solution solutionId checksum) = false := by simpa using hdup
    have hready := lookup_ready_none_of_not_contains env st _ hdupf
    have h1 := process_unconfirmed_solution_eq env solutionId solution checksum hchk st
    rw [if_neg hdup] at h1
    by_cases hbasic : env.checkSolutionBasic solutionId solution = true
    · rw [if_pos hbasic] at h1
      have h2 := process_unconfirmed_solution_eq env solutionId solution checksum hchk
        (process_unconfirmed_solution env st solutionId solution).1
      rw [h1] at h2 ⊢
      have hc2 : worker_contains_transmission env
          ({ ready := updateOrAppend st.ready (TransmissionID.solution solutionId checksum)
                (Transmission.solution solution),
              pending := st.pending.filter (fun t => !(t == TransmissionID.solution solutionId checksum)) } : WorkerState)
          (TransmissionID.solution solutionId checksum) = true := by
        simp [worker_contains_transmission, lookupKey_updateOrAppend_self]
      rw [if_pos hc2] at h2
      refine ⟨fun h => absurd h hdup, by simp [hdupf, hbasic, Except.isOk, Except.toBool], ?_, ?_⟩
      · intro _
        exact updateOrAppend_eq_append_of_lookup_none _ _ _ hready
      · rw [h2]
        refine ⟨rfl, ?_⟩
        show countKey (updateOrAppend st.ready (TransmissionID.solution solutionId checksum)
            (Transmission.solution solution)) (TransmissionID.solution solutionId checksum) ≤ 1
        rw [updateOrAppend_eq_append_of_lookup_none _ _ _ hready, countKey_append,
          countKey_eq_zero_of_lookup_none _ _ hready]
        simp [countKey, List.countP_cons]
    · have hbf : env.checkSolutionBasic solutionId solution = false := by simpa using hbasic
      rw [if_neg hbasic] at h1
      have h2 := process_unconfirmed_solution_eq env solutionId solution checksum hchk
        (process_unconfirmed_solution env st solutionId solution).1
      rw [h1] at h2 ⊢
      have hdup2 : ¬ worker_contains_transmission env
          ({ st with pending := st.pending.filter (fun t => !(t == TransmissionID.solution solutionId checksum)) } : WorkerState)
          (TransmissionID.solution solutionId checksum) = true := hdup
      rw [if_neg hdup2, if_neg hbasic] at h2
      refine ⟨fun h => absurd h hdup, by simp [hbf, Except.isOk, Except.toBool], by simp [Except.isOk, Except.toBool], ?_⟩
      rw [h2]
      exact ⟨rfl, countKey_le_one_of_nodup _ _ hnd⟩

theorem process_unconfirmed_transaction_spec (env : ChainEnv) (st : WorkerState)
    (transactionId transaction checksum : Nat)
    (hchk : env.transactionChecksum transaction = some checksum)
    (hnd : (st.ready.map Prod.fst).Nodup) :
    (worker_contains_transmission env st (TransmissionID.transaction transactionId checksum) = true →
        (process_unconfirmed_transaction env st transactionId transaction).2
            = .error "Transaction already exists"
          ∧ (process_unconfirmed_transaction env st transactionId transaction).1.ready = st.ready)
      ∧ ((process_unconfirmed_transaction env st transactionId transaction).2.isOk = true
          ↔ (worker_contains_transmission env st (TransmissionID.transaction transactionId checksum)
                = false
              ∧ env.checkTransactionBasic transactionId transaction = true))
      ∧ ((process_unconfirmed_transaction env st transactionId transaction).2.isOk = true →
          (process_unconfirmed_transaction env st transactionId transaction).1.ready
            = st.ready ++ [(TransmissionID.transaction transactionId checksum,
                Transmission.transaction transaction)])
      ∧ ((process_unconfirmed_transaction env
              (process_unconfirmed_transaction env st transactionId transaction).1
              transactionId transaction).2.isOk = false
          ∧ countKey (process_unconfirmed_transaction env
                (process_unconfirmed_transaction env st transactionId transaction).1
                transactionId transaction).1.ready
              (TransmissionID.transaction transactionId checksum) ≤ 1) := by
  by_cases hdup :
      worker_contains_transmission env st (TransmissionID.transaction transactionId checksum) = true
  · have h1 := process_unconfirmed_transaction_eq env transactionId transaction checksum hchk st
    rw [if_pos hdup] at h1
    have hdup2 : worker_contains_transmission env
        ({ st with pending := st.pending.filter (fun t => !(t == TransmissionID.transaction transactionId checksum)) } : WorkerState)
        (TransmissionID.transaction transactionId checksum) = true := hdup
    have h2 := process_unconfirmed_transaction_eq env transactionId transaction checksum hchk
      (process_unconfirmed_transaction env st transactionId transaction).1
    rw [h1] at h2 ⊢
    rw [if_pos hdup2] at h2
    refine ⟨fun _ => ⟨rfl, rfl⟩, by simp [hdup, Except.isOk, Except.toBool], by simp [Except.isOk, Except.toBool], ?_⟩
    rw [h2]
    exact ⟨rfl, countKey_le_one_of_nodup _ _ hnd⟩
  · have hdupf : worker_contains_transmission env st
        (TransmissionID.transaction transactionId checksum) = false := by simpa using hdup
    have hready := lookup_ready_none_of_not_contains env st _ hdupf
    have h1 := process_unconfirmed_transaction_eq env transactionId transaction checksum hchk st
    rw [if_neg hdup] at h1
    by_cases hbasic : env.checkTransactionBasic transactionId transaction = true
    · rw [if_pos hbasic] at h1
      have h2 := process_unconfirmed_transaction_eq env transactionId transaction checksum hchk
        (process_unconfirmed_transaction env st transactionId transaction).1
      rw [h1] at h2 ⊢
      have hc2 : worker_contains_transmission env
          ({ ready := updateOrAppend st.ready (TransmissionID.transaction transactionId checksum)
                (Transmission.transaction transaction),
              pending := st.pending.filter (fun t => !(t == TransmissionID.transaction transactionId checksum)) } : WorkerState)
          (TransmissionID.transaction transactionId checksum) = true := by
        simp [worker_contains_transmission, lookupKey_updateOrAppend_self]
      rw [if_pos hc2] at h2
      refine ⟨fun h => absurd h hdup, by simp [hdupf, hbasic, Except.isOk, Except.toBool], ?_, ?_⟩
      · intro _
        exact updateOrAppend_eq_append_of_lookup_none _ _ _ hready
      · rw [h2]
        refine ⟨rfl, ?_⟩
        show countKey (updateOrAppend st.ready (TransmissionID.transaction transactionId checksum)
            (Transmission.transaction transaction)) (TransmissionID.transaction transactionId checksum) ≤ 1
        rw [updateOrAppend_eq_append_of_lookup_none _ _ _ hready, countKey_append,
          countKey_eq_zero_of_lookup_none _ _ hready]
        simp [countKey, List.countP_cons]
    · have hbf : env.checkTransactionBasic transactionId transaction = false := by simpa using hbasic
      rw [if_neg hbasic] at h1
      have h2 := process_unconfirmed_transaction_eq env transactionId transaction checksum hchk
        (process_unconfirmed_transaction env st transactionId transaction).1
      rw [h1] at h2 ⊢
      have hdup2 : ¬ worker_contains_transmission env
          ({ st with pending := st.pending.filter (fun t => !(t == TransmissionID.transaction transactionId checksum)) } : WorkerState)
          (TransmissionID.transaction transactionId checksum) = true := hdup
      rw [if_neg hdup2, if_neg hbasic] at h2
      refine ⟨fun h => absurd h hdup, by simp [hbf, Except.isOk, Except.toBool], by simp [Except.isOk, Except.toBool], ?_⟩
      rw [h2]
      exact ⟨rfl, countKey_le_one_of_nodup _ _ hnd⟩

/-- C3: `process_unconfirmed_solution` / `process_unconfirmed_transaction`
fail when the transmission id already exists in the ready queue, proposed
batch, storage or ledger; they insert into the ready queue exactly when that
duplicate check and the ledger basic check both succeed; and after two calls
with the same id and payload, the ready queue holds at most one entry for
the id and the second call returns an error. -/
theorem claim_C3_process_unconfirmed_dedup (env : ChainEnv) (st : WorkerState)
    (solutionId solution transactionId transaction checksumS checksumT : Nat)
    (hchkS : env.solutionChecksum solution = some checksumS)
    (hchkT : env.transactionChecksum transaction = some checksumT)
    (hnd : (st.ready.map Prod.fst).Nodup) :
    ((worker_contains_transmission env st (TransmissionID.solution solutionId checksumS) = true →
        (process_unconfirmed_solution env st solutionId solution).2
            = .error "Solution already exists"
          ∧ (process_unconfirmed_solution env st solutionId solution).1.ready = st.ready)
      ∧ ((process_unconfirmed_solution env st solutionId solution).2.isOk = true
          ↔ (worker_contains_transmission env st (TransmissionID.solution solutionId checksumS)
                = false
              ∧ env.checkSolutionBasic solutionId solution = true))
      ∧ ((process_unconfirmed_solution env st solutionId solution).2.isOk = true →
          (process_unconfirmed_solution env st solutionId solution).1.ready
            = st.ready ++ [(TransmissionID.solution solutionId checksumS,
                Transmission.solution solution)])
      ∧ ((process_unconfirmed_solution env
              (process_unconfirmed_solution env st solutionId solution).1
              solutionId solution).2.isOk = false
          ∧ countKey (process_unconfirmed_solution env
                (process_unconfirmed_solution env st solutionId solution).1
                solutionId solution).1.ready
              (TransmissionID.solution solutionId checksumS) ≤ 1))
    ∧ ((worker_contains_transmission env st
            (TransmissionID.transaction transactionId checksumT) = true →
        (process_unconfirmed_transaction env st transactionId transaction).2
            = .error "Transaction already exists"
          ∧ (process_unconfirmed_transaction env st transactionId transaction).1.ready = st.ready)
      ∧ ((process_unconfirmed_transaction env st transactionId transaction).2.isOk = true
          ↔ (worker_contains_transmission env st
                (TransmissionID.transaction transactionId checksumT) = false
              ∧ env.checkTransactionBasic transactionId transaction = true))
      ∧ ((process_unconfirmed_transaction env st transactionId transaction).2.isOk = true →
          (process_unconfirmed_transaction env st transactionId transaction).1.ready
            = st.ready ++ [(TransmissionID.transaction transactionId checksumT,
                Transmission.transaction transaction)])
      ∧ ((process_unconfirmed_transaction env
              (process_unconfirmed_transaction env st transactionId transaction).1
              transactionId transaction).2.isOk = false
          ∧ countKey (process_unconfirmed_transaction env
                (process_unconfirmed_transaction env st transactionId transaction).1
                transactionId transaction).1.ready
              (TransmissionID.transaction transactionId checksumT) ≤ 1)) :=
  ⟨process_unconfirmed_solution_spec env st solutionId solution checksumS hchkS hnd,
    process_unconfirmed_transaction_spec env st transactionId transaction checksumT hchkT hnd⟩

/-- Witness for C3: on an empty worker, pushing a fresh solution and a fresh
transaction succeeds, and the claimed dedup consequences hold at these
concrete inputs. -/
theorem claim_C3_process_unconfirmed_dedup_witness :
    (process_unconfirmed_solution egChainEnv
          (process_unconfirmed_solution egChainEnv egWorkerState 1 9).1 1 9).2.isOk = false
      ∧ countKey (process_unconfirmed_solution egChainEnv
            (process_unconfirmed_solution egChainEnv egWorkerState 1 9).1 1 9).1.ready
          (TransmissionID.solution 1 5) ≤ 1 :=
  (claim_C3_process_unconfirmed_dedup egChainEnv egWorkerState 1 9 2 8 5 6 rfl rfl
    (by simp [egWorkerState])).1.2.2.2

/-! ## Claim C7: the common ancestor computation -/

theorem sortedAscending_of_range' (locs : List (Nat × Nat)) :
    ∀ (k n : Nat), locs.map Prod.fst = List.range' k n →
      BlockLocators.sortedAscending locs = true := by
  induction locs with
  | nil =>
    intro k n _
    rfl
  | cons p rest ih =>
    intro k n h
    cases n with
    | zero => simp at h
    | succ m =>
      rw [List.range'_succ] at h
      simp only [List.map_cons, List.cons.injEq] at h
      cases rest with
      | nil => rfl
      | cons q rest2 =>
        have hq : q.1 = k + 1 := by
          cases m with
          | zero => simp at h
          | succ m2 =>
            rw [List.range'_succ] at h
            simp only [List.map_cons, List.cons.injEq] at h
            exact h.2.1
        simp only [BlockLocators.sortedAscending, Bool.and_eq_true, decide_eq_true_eq]
        exact ⟨by omega, ih (k + 1) m h.2⟩

theorem ancestor_loop_prefix (reference : Nat → Option Nat) (L : Nat) :
    ∀ (locs : List (Nat × Nat)) (k anc : Nat),
      locs.map Prod.fst = List.range' k (L + 2 - k) →
      k ≤ L + 1 →
      (k = L + 1 → anc = L) →
      (∀ p ∈ locs, p.1 ≤ L → reference p.1 = some p.2) →
      (∀ p ∈ locs, p.1 = L + 1 →
        (reference (L + 1)).isSome = true ∧ ¬reference (L + 1) = some p.2) →
      compute_common_ancestor_loop reference locs anc = L := by
  intro locs
  induction locs with
  | nil =>
    intro k anc h hk _ _ _
    exfalso
    have : L + 2 - k = 0 := by
      have := congrArg List.length h
      simpa using this.symm
    omega
  | cons p rest ih =>
    intro k anc h hk hanc hagree hdiverge
    obtain ⟨height, hash⟩ := p
    have hn : L + 2 - k = (L + 1 - k) + 1 := by omega
    rw [hn, List.range'_succ] at h
    simp only [List.map_cons, List.cons.injEq] at h
    rcases h with ⟨hheight, hrest⟩
    subst hheight
    by_cases hkL : height ≤ L
    · have hr := hagree (height, hash) (by simp) (by simpa using hkL)
      simp only at hr
      simp only [compute_common_ancestor_loop, hr, beq_self_eq_true, if_true]
      apply ih (height + 1) height
      · have : L + 2 - (height + 1) = L + 1 - height := by omega
        rw [this]
        exact hrest
      · omega
      · intro hk1
        omega
      · intro p hp hpL
        exact hagree p (by simp [hp]) hpL
      · intro p hp hpL
        exact hdiverge p (by simp [hp]) hpL
    · have hkeq : height = L + 1 := by omega
      subst hkeq
      have hd := hdiverge (L + 1, hash) (by simp) rfl
      rcases hd with ⟨hsome, hne⟩
      rcases hr : reference (L + 1) with _ | c
      · rw [hr] at hsome
        simp at hsome
      · rw [hr] at hne
        have hcx : (c == hash) = false := by
          simp only [beq_eq_false_iff_ne, ne_eq]
          intro hc
          exact hne (by rw [hc])
        simp only [compute_common_ancestor_loop, hr, hcx, Bool.false_eq_true, if_false]
        exact hanc rfl

theorem update_pairwise_preserves_self (peerIp : Nat) (locators : BlockLocators) :
    ∀ (others : List (Nat × BlockLocators)) (ca : List ((Nat × Nat) × Nat)),
      lookupKey (update_pairwise_ancestors peerIp locators others ca) (DUMMY_SELF_IP, peerIp)
        = lookupKey ca (DUMMY_SELF_IP, peerIp) := by
  intro others
  induction others with
  | nil =>
    intro ca
    rfl
  | cons other rest ih =>
    intro ca
    obtain ⟨otherIp, otherLocators⟩ := other
    by_cases hother : (otherIp == peerIp) = true
    · simp only [update_pairwise_ancestors, hother, if_true]
      exact ih ca
    · simp only [update_pairwise_ancestors]
      rw [if_neg hother]
      rw [ih]
      apply lookupKey_updateOrAppend_ne
      intro hkey
      simp only [beq_iff_eq] at hother
      have h2 : peerIp = otherIp := congrArg Prod.snd hkey
      exact hother h2.symm

/-- C7: `update_peer_locators` records as the common ancestor of self and the
peer the result of iterating the peer locators upward in height against the
canonical ledger, stopping at the first mismatch; in particular, for
locators agreeing with the canonical chain on heights 0 up to L and
diverging at height L + 1, the recorded common ancestor is exactly L. -/
theorem claim_C7_common_ancestor (canon : Nat → Option Nat) (st : BlockSyncLocatorState)
    (peerIp : Nat) (locators : BlockLocators) (L : Nat)
    (hnew : ¬lookupKey st.locators peerIp = some locators)
    (hheights : locators.map Prod.fst = List.range (L + 2))
    (hagree : ∀ p ∈ locators, p.1 ≤ L → canon p.1 = some p.2)
    (hdiverge : ∀ p ∈ locators, p.1 = L + 1 →
        (canon (L + 1)).isSome = true ∧ ¬canon (L + 1) = some p.2) :
    ∃ st2, update_peer_locators canon st peerIp locators = .ok st2
      ∧ lookupKey st2.commonAncestors (DUMMY_SELF_IP, peerIp) = some L := by
  have hanc : compute_common_ancestor_loop canon locators 0 = L := by
    apply ancestor_loop_prefix canon L locators 0 0
    · simpa [List.range_eq_range'] using hheights
    · omega
    · omega
    · exact hagree
    · exact hdiverge
  have hsorted : BlockLocators.sortedAscending locators = true := by
    apply sortedAscending_of_range' locators 0 (L + 2)
    simpa [List.range_eq_range'] using hheights
  simp only [update_peer_locators]
  rw [if_neg (by simp [hnew]), if_neg (by simp [hsorted])]
  refine ⟨_, rfl, ?_⟩
  rw [update_pairwise_preserves_self, lookupKey_updateOrAppend_self, hanc]

/-- Witness for C7: locators matching the canonical chain at heights 0 and 1
and diverging at height 2 yield a recorded common ancestor of exactly 1. -/
theorem claim_C7_common_ancestor_witness :
    ∃ st2, update_peer_locators (fun h => if h ≤ 2 then some (100 + h) else none)
          ⟨[], []⟩ 5 [(0, 100), (1, 101), (2, 999)] = .ok st2
        ∧ lookupKey st2.commonAncestors (DUMMY_SELF_IP, 5) = some 1 :=
  claim_C7_common_ancestor (fun h => if h ≤ 2 then some (100 + h) else none)
    ⟨[], []⟩ 5 [(0, 100), (1, 101), (2, 999)] 1
    (by decide) (by decide) (by decide) (by decide)

/-! ## Claim C1: subdag atomicity -/

theorem mem_revStepBy2 (lo : Nat) : ∀ (hi r : Nat),
    r ∈ revStepBy2 lo hi ↔ (lo ≤ r ∧ r ≤ hi ∧ 2 ∣ (hi - r)) := by
  intro hi
  induction hi using Nat.strong_induction_on with
  | _ hi ih =>
    intro r
    cases hi with
    | zero =>
      simp only [revStepBy2]
      by_cases h0 : lo = 0
      · rw [if_pos h0]
        simp only [List.mem_singleton]
        omega
      · rw [if_neg h0]
        simp only [List.not_mem_nil, false_iff]
        omega
    | succ h0 =>
      cases h0 with
      | zero =>
        simp only [revStepBy2]
        by_cases h1 : lo ≤ 1
        · rw [if_pos h1]
          simp only [List.mem_singleton]
          omega
        · rw [if_neg h1]
          simp only [List.not_mem_nil, false_iff]
          omega
      | succ h =>
        simp only [revStepBy2]
        by_cases h2 : lo ≤ h + 2
        · rw [if_pos h2]
          simp only [List.mem_cons]
          rw [ih h (by omega) r]
          omega
        · rw [if_neg h2]
          simp only [List.not_mem_nil, false_iff]
          omega

theorem mem_isLinkedRounds (a b q : Nat) :
    q ∈ isLinkedRounds a b ↔ (a ≤ q ∧ q < b) := by
  simp only [isLinkedRounds, List.mem_reverse, List.mem_range']
  constructor
  · rintro ⟨i, hi, rfl⟩
    omega
  · intro h
    exact ⟨q - a, by omega, by omega⟩

theorem lookupKey_eq_some_mem {α β : Type} [BEq α] [LawfulBEq α]
    (l : List (α × β)) (k : α) (v : β) (h : lookupKey l k = some v) : (k, v) ∈ l := by
  induction l with
  | nil => simp [lookupKey] at h
  | cons p rest ih =>
    obtain ⟨a, b⟩ := p
    by_cases hp : a = k
    · subst hp
      rw [lookupKey_cons_pos (a, b) rest a rfl] at h
      injection h with hv
      subst hv
      exact List.mem_cons_self _ _
    · rw [lookupKey_cons_neg (a, b) rest k hp] at h
      exact List.mem_cons_of_mem _ (ih h)

theorem isLinkedLoop_spec (s : Subdag) :
    ∀ (rounds : List Nat) (t : List Certificate),
      (∀ q ∈ rounds, (s.get q).isSome = true) →
      ∃ result, isLinkedLoop s t rounds = .ok result
        ∧ ∀ p, p ∈ result ↔ ∃ c ∈ t, ChainThrough s rounds c p := by
  intro rounds
  induction rounds with
  | nil =>
    intro t _
    refine ⟨t, rfl, ?_⟩
    intro p
    simp [ChainThrough]
  | cons q rest ih =>
    intro t hq
    rcases hsome : s.get q with _ | certs
    · have := hq q (List.mem_cons_self _ _)
      rw [hsome] at this
      simp at this
    · obtain ⟨result, hres, hmem⟩ :=
        ih (isLinkedStep t certs) (fun q2 hq2 => hq q2 (List.mem_cons_of_mem _ hq2))
      refine ⟨result, by simp [isLinkedLoop, hsome, hres], ?_⟩
      intro p
      rw [hmem p]
      have hcerts : s.certsAt q = certs := by simp [Subdag.certsAt, hsome]
      constructor
      · rintro ⟨c1, hc1, hchain⟩
        simp only [isLinkedStep, List.mem_filter, List.any_eq_true] at hc1
        obtain ⟨hc1certs, c, hct, hcontains⟩ := hc1
        exact ⟨c, hct, c1, by rw [hcerts]; exact hc1certs, hcontains, hchain⟩
      · rintro ⟨c, hct, m, hmcerts, hcont, hchain⟩
        refine ⟨m, ?_, hchain⟩
        simp only [isLinkedStep, List.mem_filter, List.any_eq_true]
        exact ⟨by rw [hcerts] at hmcerts; exact hmcerts, c, hct, hcont⟩

theorem isLinked_spec (s : Subdag) (prev cur : Certificate)
    (h : ∀ q ∈ isLinkedRounds prev.round cur.round, (s.get q).isSome = true) :
    ∃ b, isLinked s prev cur = .ok b ∧ (b = true ↔ CausallyLinked s prev cur) := by
  obtain ⟨result, hres, hmem⟩ :=
    isLinkedLoop_spec s (isLinkedRounds prev.round cur.round) [cur] h
  refine ⟨result.contains prev, by simp [isLinked, hres, Except.map], ?_⟩
  have hc : result.contains prev = true ↔ prev ∈ result := by simp
  rw [hc, hmem prev]
  simp only [List.mem_singleton, CausallyLinked]
  constructor
  · rintro ⟨c, rfl, hchain⟩
    exact hchain
  · intro hchain
    exact ⟨cur, rfl, hchain⟩

theorem atomicity_loop_iff (env : AtomicityEnv) (s : Subdag)
    (hrounds : ∀ q, env.latestRound + 2 ≤ q → q < s.anchorRound → (s.get q).isSome = true)
    (hcertRounds : ∀ p ∈ s.rounds, ∀ c ∈ p.2, c.round = p.1)
    (hauthors : ∀ p ∈ s.rounds, ∀ c1 ∈ p.2, ∀ c2 ∈ p.2, c1.author = c2.author → c1 = c2) :
    ∀ (rounds : List Nat),
      (∀ r ∈ rounds, (env.getCommitteeLookbackLeader r).isSome = true) →
      (∀ r ∈ rounds, env.latestRound + 2 ≤ r ∧ r + 2 ≤ s.anchorRound) →
      (check_block_subdag_atomicity_loop env s rounds = .ok ()
        ↔ ∀ r ∈ rounds, ¬∃ prev ∈ s.certsAt r,
            env.getCommitteeLookbackLeader r = some prev.author
              ∧ CausallyLinked s prev s.leaderCertificate) := by
  intro rounds
  induction rounds with
  | nil =>
    intro _ _
    simp [check_block_subdag_atomicity_loop]
  | cons r rest ih =>
    intro hlead hrange
    have hlead2 : ∀ r2 ∈ rest, (env.getCommitteeLookbackLeader r2).isSome = true :=
      fun r2 h2 => hlead r2 (List.mem_cons_of_mem _ h2)
    have hrange2 : ∀ r2 ∈ rest, env.latestRound + 2 ≤ r2 ∧ r2 + 2 ≤ s.anchorRound :=
      fun r2 h2 => hrange r2 (List.mem_cons_of_mem _ h2)
    have hleadr := hlead r (List.mem_cons_self _ _)
    rcases hL : env.getCommitteeLookbackLeader r with _ | leader
    · rw [hL] at hleadr
      simp at hleadr
    · have hrr := hrange r (List.mem_cons_self _ _)
      have hsr : (s.get r).isSome = true := hrounds r hrr.1 (by omega)
      rcases hg : s.get r with _ | certs
      · rw [hg] at hsr
        simp at hsr
      · have hcr : s.certsAt r = certs := by simp [Subdag.certsAt, hg]
        have hcertsMem : (r, certs) ∈ s.rounds := lookupKey_eq_some_mem _ _ _ hg
        have hroundEq : ∀ c ∈ certs, c.round = r :=
          fun c hc => hcertRounds (r, certs) hcertsMem c hc
        simp only [check_block_subdag_atomicity_loop, hL, hg, Option.some_bind]
        rcases hf : certs.find? (fun c => c.author == leader) with _ | prev
        · rw [hf]
          dsimp only
          have hnone := List.find?_eq_none.mp hf
          have hPr : ¬∃ prev ∈ s.certsAt r,
              env.getCommitteeLookbackLeader r = some prev.author
                ∧ CausallyLinked s prev s.leaderCertificate := by
            rintro ⟨prev, hmem, hsome, -⟩
            rw [hcr] at hmem
            rw [hL] at hsome
            injection hsome with he
            exact hnone prev hmem (by simp [he])
          rw [ih hlead2 hrange2, List.forall_mem_cons]
          exact (and_iff_right hPr).symm
        · rw [hf]
          dsimp only
          have hprevMem : prev ∈ certs := List.mem_of_find?_eq_some hf
          have hprevAuthor : prev.author = leader := by
            have := List.find?_some hf
            simpa using this
          have hprevRound : prev.round = r := hroundEq prev hprevMem
          have hlink : ∀ q ∈ isLinkedRounds prev.round s.leaderCertificate.round,
              (s.get q).isSome = true := by
            intro q hq
            rw [mem_isLinkedRounds] at hq
            have hq1 := hq.1
            rw [hprevRound] at hq1
            exact hrounds q (by omega) hq.2
          obtain ⟨b, hb, hbiff⟩ := isLinked_spec s prev s.leaderCertificate hlink
          rw [hb]
          cases b with
          | true =>
            have hsplit : ∃ prev2 ∈ s.certsAt r,
                env.getCommitteeLookbackLeader r = some prev2.author
                  ∧ CausallyLinked s prev2 s.leaderCertificate :=
              ⟨prev, by rw [hcr]; exact hprevMem, by rw [hL, hprevAuthor],
                hbiff.mp rfl⟩
            constructor
            · intro h
              exact absurd h (by simp)
            · intro hall
              exact absurd hsplit (hall r (List.mem_cons_self _ _))
          | false =>
            have hPr : ¬∃ prev2 ∈ s.certsAt r,
                env.getCommitteeLookbackLeader r = some prev2.author
                  ∧ CausallyLinked s prev2 s.leaderCertificate := by
              rintro ⟨prev2, hmem2, hsome2, hlink2⟩
              rw [hcr] at hmem2
              rw [hL] at hsome2
              injection hsome2 with he
              have heq : prev2 = prev :=
                hauthors (r, certs) hcertsMem prev2 hmem2 prev hprevMem
                  (by rw [← he, hprevAuthor])
              rw [heq] at hlink2
              have := hbiff.mpr hlink2
              simp at this
            rw [ih hlead2 hrange2, List.forall_mem_cons]
            exact (and_iff_right hPr).symm

/-- C1: for a block carrying a quorum subdag (under the structural subdag
invariants: all rounds between the latest ledger round and the anchor are
present, certificates sit at their stated round, one certificate per author
per round, committee leaders computable, anchor round even), the subdag
atomicity check rejects the block if and only if some even round r between
`latest_round + 2` and `anchor_round - 2` holds a certificate authored by
the leader computed from the committee lookback for r that is causally
linked, through `previous_certificate_ids`, to the subdag leader
certificate. -/
theorem claim_C1_subdag_atomicity (env : AtomicityEnv) (s : Subdag)
    (hleaders : ∀ r ∈ revStepBy2 (env.latestRound + 2) (s.anchorRound - 2),
        (env.getCommitteeLookbackLeader r).isSome = true)
    (hrounds : ∀ q < s.anchorRound, env.latestRound + 2 ≤ q → (s.get q).isSome = true)
    (hcertRounds : ∀ p ∈ s.rounds, ∀ c ∈ p.2, c.round = p.1)
    (hauthors : ∀ p ∈ s.rounds, ∀ c1 ∈ p.2, ∀ c2 ∈ p.2, c1.author = c2.author → c1 = c2)
    (hanchorEven : s.anchorRound % 2 = 0) :
    (¬check_block_subdag_atomicity env (.quorum s) = .ok ())
      ↔ ∃ r, r % 2 = 0 ∧ env.latestRound + 2 ≤ r ∧ r + 2 ≤ s.anchorRound
          ∧ ∃ prev ∈ s.certsAt r, env.getCommitteeLookbackLeader r = some prev.author
            ∧ CausallyLinked s prev s.leaderCertificate := by
  have hrounds2 : ∀ q, env.latestRound + 2 ≤ q → q < s.anchorRound → (s.get q).isSome = true :=
    fun q h1 h2 => hrounds q h2 h1
  have hrangeAll : ∀ r ∈ revStepBy2 (env.latestRound + 2) (s.anchorRound - 2),
      env.latestRound + 2 ≤ r ∧ r + 2 ≤ s.anchorRound := by
    intro r hr
    rw [mem_revStepBy2] at hr
    omega
  rw [show check_block_subdag_atomicity env (.quorum s)
      = check_block_subdag_atomicity_loop env s
          (revStepBy2 (env.latestRound + 2) (s.anchorRound - 2)) from rfl]
  rw [atomicity_loop_iff env s hrounds2 hcertRounds hauthors _ hleaders hrangeAll]
  constructor
  · intro h
    push_neg at h
    obtain ⟨r, hrmem, hP⟩ := h
    have hb := (mem_revStepBy2 _ _ _).mp hrmem
    exact ⟨r, by omega, by omega, by omega, hP⟩
  · rintro ⟨r, hre, h1, h2, hP⟩
    intro hall
    exact (hall r ((mem_revStepBy2 _ _ _).mpr ⟨h1, by omega, by omega⟩)) hP

/-- Witness for C1: on the concrete split subdag, the atomicity check
rejects, exactly matching the existence of the linked round-2 leader
certificate. -/
theorem claim_C1_subdag_atomicity_witness :
    (¬check_block_subdag_atomicity egAtomicityEnv (.quorum egSubdag) = .ok ())
      ↔ ∃ r, r % 2 = 0 ∧ egAtomicityEnv.latestRound + 2 ≤ r ∧ r + 2 ≤ egSubdag.anchorRound
          ∧ ∃ prev ∈ egSubdag.certsAt r,
              egAtomicityEnv.getCommitteeLookbackLeader r = some prev.author
                ∧ CausallyLinked egSubdag prev egSubdag.leaderCertificate :=
  claim_C1_subdag_atomicity egAtomicityEnv egSubdag (by decide) (by decide) (by decide)
    (by decide) (by decide)
